import Mathlib

/-!
Verification of the `indic-soundex` repository against its design
specification.  The repository's only source file, `src/indic_soundex.py`,
is a compatibility shim (`from indic_soundex.core import IndicSoundex`;
`__all__ = ["IndicSoundex"]`); the encoding core itself lives in the
`indic_soundex` package, which is not part of the sources.  The core is
therefore modelled here directly from the specification's component
contracts (sections 3, 4.1-4.5), and the shim and its import semantics are
embedded from the source file.
-/

namespace IndicSoundex

/-- Modelled from the spec: the `Script` enumerated tag of section 3
(the core module that declares it is missing from the sources). -/
inductive Script where
  | devanagari
  | bengali
  | gujarati
  | tamil
  | telugu
  | kannada
  | malayalam
  | gurmukhi
  | latin
deriving DecidableEq, Repr

/-- The fixed enumeration order of scripts, used by the detector to pick
the script claiming the first resolvable code point. -/
def Script.all : List Script :=
  [.devanagari, .bengali, .gujarati, .tamil, .telugu, .kannada,
   .malayalam, .gurmukhi, .latin]

/-- Modelled from the spec: the kind of a Modifier code point
(section 3, `CharRole`). -/
inductive ModKind where
  | virama
  | nasalization
  | gemination
  | other
deriving DecidableEq, Repr

/-- Modelled from the spec: the `CharRole` tagged variant of section 3. -/
inductive CharRole where
  | consonant
  | independentVowel
  | dependentVowelSign
  | modifier (kind : ModKind)
deriving DecidableEq, Repr

/-- Modelled from the spec: the closed `PhoneticClass` alphabet of
section 3 — a small set (fewer than 10) of consonant classes plus the
neutral class for vowel-only syllables and the `Unknown` fallback of
section 4.3. -/
inductive PhoneticClass where
  | labial
  | dental
  | retroflex
  | palatal
  | velar
  | sibilant
  | nasal
  | neutral
  | unknown
deriving DecidableEq, Repr

/-- Modelled from the spec: the vowel slot of a syllable — the dependent
sign if present, else the script's inherent vowel, else an independent
vowel for a vowel-initial syllable (section 3, `Syllable`). -/
inductive VowelVal where
  | inherent
  | dep (cp : Nat)
  | indep (cp : Nat)
deriving DecidableEq, Repr

/-- Modelled from the spec: the `Syllable` segmentation unit of section 3:
an optional base consonant (code point), an optional vowel slot (`none`
for a bare virama-killed consonant), and the ordered list of attached
modifiers. -/
structure Syllable where
  base : Option Nat
  vowel : Option VowelVal
  mods : List ModKind
deriving DecidableEq, Repr

/-- Modelled from the spec: the process-wide immutable Script Table of
section 2 — for each script, the role of every code point inside its
declared ranges (`none` outside them), plus the universally-ignorable
character predicate (whitespace, punctuation, digits). -/
structure ScriptTable where
  roleOf : Script → Nat → Option CharRole
  ignorable : Nat → Bool

/-- Modelled from the spec: the `PhoneticClass` policy table of
section 4.3 — the consonant-to-class lookup (partial: uncovered
consonants fall back to `Unknown`) and the enumerated modifier-driven
reclassification exceptions. -/
structure ClassTable where
  consClass : Nat → Option PhoneticClass
  modClass : ModKind → Option PhoneticClass

/-- Modelled from the spec: the error kinds of section 7. -/
inductive EncodeError where
  | UnsupportedScript
  | ScriptMismatch
  | InvalidSequence
  | ScriptViolation
deriving DecidableEq, Repr

/-- Modelled from the spec: a `Code` (section 3) — the literal anchor
symbol retained verbatim from the first syllable, followed by the tail
of `PhoneticClass` symbols. -/
structure Code where
  anchor : Nat
  tail : List PhoneticClass
deriving DecidableEq, Repr

/-- The first script (in the fixed enumeration order) whose ranges
resolve the given code point, if any. -/
def claimant (tbl : ScriptTable) (cp : Nat) : Option Script :=
  Script.all.find? (fun s => (tbl.roleOf s cp).isSome)

/-- Modelled from the spec: the Script Detector of section 4.1.  Scans
code points until one is resolvable in some known script; with a hint it
validates that the first resolvable code point is consistent with the
hint, failing with `ScriptMismatch` otherwise; with no resolvable code
point at all it fails with `UnsupportedScript`. -/
def detect (tbl : ScriptTable) (hint : Option Script) :
    List Nat → Except EncodeError Script
  | [] => .error .UnsupportedScript
  | cp :: rest =>
    match claimant tbl cp with
    | none => detect tbl hint rest
    | some s =>
      match hint with
      | none => .ok s
      | some h =>
        if (tbl.roleOf h cp).isSome then .ok h else .error .ScriptMismatch

/-- Modelled from the spec: the single left-to-right pass of the Syllable
Segmenter (section 4.2), carrying the currently open syllable (if any)
and the accumulated closed syllables. -/
def segGo (tbl : ScriptTable) (sc : Script) :
    Option Syllable → List Syllable → List Nat →
    Except EncodeError (List Syllable)
  | cur, acc, [] => .ok (acc ++ cur.toList)
  | cur, acc, cp :: rest =>
    match tbl.roleOf sc cp with
    | some .consonant =>
        segGo tbl sc (some ⟨some cp, some .inherent, []⟩)
          (acc ++ cur.toList) rest
    | some .independentVowel =>
        segGo tbl sc (some ⟨none, some (.indep cp), []⟩)
          (acc ++ cur.toList) rest
    | some .dependentVowelSign =>
        match cur with
        | none => .error .InvalidSequence
        | some syl =>
            segGo tbl sc (some { syl with vowel := some (.dep cp) }) acc rest
    | some (.modifier k) =>
        match cur with
        | none => .error .InvalidSequence
        | some syl =>
            if k = .virama then
              segGo tbl sc none
                (acc ++ [{ syl with vowel := none, mods := syl.mods ++ [ModKind.virama] }]) rest
            else
              segGo tbl sc (some { syl with mods := syl.mods ++ [k] }) acc rest
    | none =>
        if tbl.ignorable cp then segGo tbl sc none (acc ++ cur.toList) rest
        else .error .ScriptViolation

/-- Modelled from the spec: `segment(text, script)` of section 4.2,
produced eagerly over the whole word. -/
def segment (tbl : ScriptTable) (sc : Script) (text : List Nat) :
    Except EncodeError (List Syllable) :=
  segGo tbl sc none [] text

/-- The first modifier of the syllable that carries a documented
reclassification exception, if any (section 4.3: exceptions are applied
before the base-consonant lookup). -/
def modOverride (ctbl : ClassTable) (s : Syllable) : Option PhoneticClass :=
  s.mods.findSome? ctbl.modClass

/-- Modelled from the spec: the Phonetic Classifier of section 4.3.
Modifier-driven reclassification wins; otherwise a pure table lookup on
the base consonant falling back to `Unknown`; a vowel-only syllable gets
the neutral class.  Total: never fails. -/
def classify (ctbl : ClassTable) (s : Syllable) : PhoneticClass :=
  match modOverride ctbl s with
  | some pc => pc
  | none =>
    match s.base with
    | some c => (ctbl.consClass c).getD .unknown
    | none => .neutral

/-- Modelled from the spec: the anchor symbol of a syllable — its base
consonant kept literally, or its vowel code point if vowel-initial
(section 4.4, rule 1). -/
def anchorOf (s : Syllable) : Nat :=
  match s.base with
  | some c => c
  | none =>
    match s.vowel with
    | some (.indep v) => v
    | some (.dep v) => v
    | _ => 0

/-- Modelled from the spec: one step of the Code Generator's reduction
over a subsequent syllable (section 4.4, rules 2 and 3): neutral-class
syllables are dropped, a class identical to the immediately preceding
retained class is dropped, anything else is appended and becomes the
retained class. -/
def genStep (ctbl : ClassTable) :
    PhoneticClass × List PhoneticClass → Syllable →
    PhoneticClass × List PhoneticClass
  | (last, acc), s =>
    let c := classify ctbl s
    if c = .neutral then (last, acc)
    else if c = last then (last, acc)
    else (c, acc ++ [c])

/-- Modelled from the spec: the Code Generator of section 4.4.  The first
syllable contributes the literal anchor (its class seeding the duplicate
collapse, as in the classical Soundex rule the section cites); the
remaining syllables are reduced by `genStep`; the tail is truncated to
the configured maximum length.  `none` only on the empty syllable
sequence, which the pipeline never produces. -/
def generate (ctbl : ClassTable) (maxLength : Nat) :
    List Syllable → Option Code
  | [] => none
  | s :: rest =>
      some ⟨anchorOf s,
            (rest.foldl (genStep ctbl) (classify ctbl s, [])).2.take maxLength⟩

/-- Modelled from the spec: `encode(word, scriptHint?)` of section 4.5 —
the composition detect, then segment, then classify/generate. -/
def encode (tbl : ScriptTable) (ctbl : ClassTable) (maxLength : Nat)
    (hint : Option Script) (text : List Nat) : Except EncodeError Code :=
  match detect tbl hint text with
  | .error e => .error e
  | .ok sc =>
    match segment tbl sc text with
    | .error e => .error e
    | .ok syls =>
      match generate ctbl maxLength syls with
      | some c => .ok c
      | none => .error .InvalidSequence

/-- Modelled from the spec: `equals(wordA, wordB)` of section 4.5 —
encodes both words through the full pipeline and compares Codes for
exact equality. -/
def equals (tbl : ScriptTable) (ctbl : ClassTable) (maxLength : Nat)
    (ha hb : Option Script) (a b : List Nat) : Except EncodeError Bool :=
  match encode tbl ctbl maxLength ha a, encode tbl ctbl maxLength hb b with
  | .ok ca, .ok cb => .ok (decide (ca = cb))
  | .error e, _ => .error e
  | .ok _, .error e => .error e

/-- A small concrete Script Table used to exercise the pipeline: a few
Devanagari code points (ka U+0915, pa U+092A, independent a U+0905, the
dependent sign aa U+093E, virama U+094D, anusvara U+0902) and the
Bengali consonant ka U+0995; space and full stop are ignorable. -/
def sampleScriptTable : ScriptTable where
  roleOf s cp :=
    match s with
    | .devanagari =>
      if cp = 0x915 then some .consonant
      else if cp = 0x92A then some .consonant
      else if cp = 0x905 then some .independentVowel
      else if cp = 0x93E then some .dependentVowelSign
      else if cp = 0x94D then some (.modifier .virama)
      else if cp = 0x902 then some (.modifier .nasalization)
      else none
    | .bengali =>
      if cp = 0x995 then some .consonant else none
    | _ => none
  ignorable cp := cp = 0x20 || cp = 0x2E

/-- A small concrete PhoneticClass policy table matching
`sampleScriptTable`: both ka consonants are velar, pa is labial, and the
nasalization modifier re-maps a syllable into the nasal class. -/
def sampleClassTable : ClassTable where
  consClass cp :=
    if cp = 0x915 then some .velar
    else if cp = 0x92A then some .labial
    else if cp = 0x995 then some .velar
    else none
  modClass k :=
    match k with
    | .nasalization => some .nasal
    | _ => none

/-- Step count of the detector's scan: one unit per code point examined,
stopping at the first resolvable one. -/
def detectSteps (tbl : ScriptTable) : List Nat → Nat
  | [] => 1
  | cp :: rest =>
    match claimant tbl cp with
    | none => 1 + detectSteps tbl rest
    | some _ => 1

/-- Step count of the segmenter's single pass, mirroring `segGo`: one
unit per code point visited, stopping early on an error. -/
def segGoSteps (tbl : ScriptTable) (sc : Script) :
    Option Syllable → List Nat → Nat
  | _, [] => 1
  | cur, cp :: rest =>
    match tbl.roleOf sc cp with
    | some .consonant =>
        1 + segGoSteps tbl sc (some ⟨some cp, some .inherent, []⟩) rest
    | some .independentVowel =>
        1 + segGoSteps tbl sc (some ⟨none, some (.indep cp), []⟩) rest
    | some .dependentVowelSign =>
        match cur with
        | none => 1
        | some syl =>
            1 + segGoSteps tbl sc (some { syl with vowel := some (.dep cp) }) rest
    | some (.modifier k) =>
        match cur with
        | none => 1
        | some syl =>
            if k = .virama then 1 + segGoSteps tbl sc none rest
            else 1 + segGoSteps tbl sc (some { syl with mods := syl.mods ++ [k] }) rest
    | none =>
        if tbl.ignorable cp then 1 + segGoSteps tbl sc none rest else 1

/-- Step count of the generator: one unit for the anchor syllable and
one per reduced trailing syllable. -/
def genSteps : List Syllable → Nat
  | [] => 1
  | _ :: rest => 1 + rest.length

/-- Total step count of an `encode` call: the detector scan, then (on
success) the segmenter pass, then (on success) the generator reduction. -/
def encodeSteps (tbl : ScriptTable) (hint : Option Script)
    (text : List Nat) : Nat :=
  detectSteps tbl text +
    match detect tbl hint text with
    | .error _ => 0
    | .ok sc =>
      segGoSteps tbl sc none text +
        match segment tbl sc text with
        | .error _ => 0
        | .ok syls => genSteps syls

end IndicSoundex

namespace Shim

/-- The legacy-path shim module `src/indic_soundex.py`: its `__all__`
export list, embedded verbatim. -/
def __all__ : List String := ["IndicSoundex"]

/-- A Python module namespace, modelled as a partial map from attribute
names to objects of some type `α`. -/
structure PyModule (α : Type) where
  attrs : String → Option α

/-- Python's `from M import name` statement: binds the looked-up object
itself when the attribute exists, and raises an import error otherwise. -/
def fromImport {α : Type} (m : PyModule α) (name : String) :
    Except String α :=
  match m.attrs name with
  | some o => .ok o
  | none => .error "ImportError"

/-- The shim's single statement `from indic_soundex.core import
IndicSoundex`, as a function of the (absent from the sources)
`indic_soundex.core` module namespace. -/
def shimImport {α : Type} (core : PyModule α) : Except String α :=
  fromImport core "IndicSoundex"

end Shim

namespace IndicSoundex

/-- A concrete populated `indic_soundex.core` module namespace, used to
exercise the shim's import statement. -/
def coreSample : Shim.PyModule Nat :=
  ⟨fun n => if n = "IndicSoundex" then some 7 else none⟩

/-- A successful `generate` bounds its tail by the configured maximum
length, since the tail is produced by `List.take maxLength`. -/
theorem generate_tail_le (ctbl : ClassTable) (ml : Nat)
    (syls : List Syllable) (c : Code)
    (h : generate ctbl ml syls = some c) : c.tail.length ≤ ml := by
  cases syls with
  | nil => simp [generate] at h
  | cons s rest =>
    simp only [generate, Option.some.injEq] at h
    subst h
    simp

/-- A generator step on a syllable whose class equals the retained class
leaves the state unchanged: neutral syllables are dropped by rule 3 and
equal classes by rule 2. -/
theorem genStep_absorb (ctbl : ClassTable) (last : PhoneticClass)
    (acc : List PhoneticClass) (s' : Syllable)
    (h : classify ctbl s' = last) :
    genStep ctbl (last, acc) s' = (last, acc) := by
  by_cases h1 : last = PhoneticClass.neutral
  · simp [genStep, h, h1]
  · simp [genStep, h, h1]

/-- Stepping twice on syllables of one class is the same as stepping
once: the second occurrence always matches the retained class (or both
are neutral and both dropped). -/
theorem genStep_dup (ctbl : ClassTable)
    (st : PhoneticClass × List PhoneticClass) (s s' : Syllable)
    (h : classify ctbl s' = classify ctbl s) :
    genStep ctbl (genStep ctbl st s) s' = genStep ctbl st s := by
  obtain ⟨last, acc⟩ := st
  by_cases h1 : classify ctbl s = PhoneticClass.neutral
  · simp [genStep, h, h1]
  · by_cases h2 : classify ctbl s = last
    · simp [genStep, h, h1, h2]
    · simp [genStep, h, h1, h2]

/-- Folding the generator over `s :: s' :: ys` equals folding it over
`s :: ys` when `s'` carries the same class as `s`. -/
theorem foldl_genStep_dup (ctbl : ClassTable) (s s' : Syllable)
    (h : classify ctbl s' = classify ctbl s) (ys : List Syllable)
    (st : PhoneticClass × List PhoneticClass) :
    List.foldl (genStep ctbl) st (s :: s' :: ys) =
      List.foldl (genStep ctbl) st (s :: ys) := by
  simp only [List.foldl_cons]
  rw [genStep_dup ctbl st s s' h]

/-- The detector examines at most one step per code point. -/
theorem detectSteps_le (tbl : ScriptTable) (text : List Nat) :
    detectSteps tbl text ≤ text.length + 1 := by
  induction text with
  | nil => simp [detectSteps]
  | cons cp rest ih =>
    simp only [detectSteps, List.length_cons]
    split
    · omega
    · omega

/-- The segmenter visits at most one step per code point, from any
starting state. -/
theorem segGoSteps_le (tbl : ScriptTable) (sc : Script)
    (text : List Nat) : ∀ cur : Option Syllable,
    segGoSteps tbl sc cur text ≤ text.length + 1 := by
  induction text with
  | nil => intro cur; simp [segGoSteps]
  | cons cp rest ih =>
    intro cur
    simp only [segGoSteps, List.length_cons]
    split <;> try split <;> try split
    all_goals
      first
        | omega
        | exact le_trans (Nat.add_le_add_left (ih _) 1) (by omega)

/-- A successful segmentation yields at most one syllable per code
point, counting the open syllable and the accumulator of the state. -/
theorem segGo_length (tbl : ScriptTable) (sc : Script) :
    ∀ (text : List Nat) (cur : Option Syllable) (acc : List Syllable)
      (syls : List Syllable),
      segGo tbl sc cur acc text = .ok syls →
      syls.length ≤ acc.length + cur.toList.length + text.length := by
  intro text
  induction text with
  | nil =>
    intro cur acc syls h
    simp only [segGo, Except.ok.injEq] at h
    subst h
    simp [List.length_append]
  | cons cp rest ih =>
    intro cur acc syls h
    simp only [segGo] at h
    split at h
    · have := ih _ _ _ h
      simp only [List.length_append, List.length_cons, List.length_nil,
        Option.toList_some, Option.toList_none] at this ⊢
      omega
    · have := ih _ _ _ h
      simp only [List.length_append, List.length_cons, List.length_nil,
        Option.toList_some, Option.toList_none] at this ⊢
      omega
    · split at h
      · exact absurd h (by simp)
      · have := ih _ _ _ h
        simp only [List.length_append, List.length_cons, List.length_nil,
          Option.toList_some, Option.toList_none] at this ⊢
        omega
    · split at h
      · exact absurd h (by simp)
      · split at h
        · have := ih _ _ _ h
          simp only [List.length_append, List.length_cons, List.length_nil,
            Option.toList_some, Option.toList_none] at this ⊢
          omega
        · have := ih _ _ _ h
          simp only [List.length_append, List.length_cons, List.length_nil,
            Option.toList_some, Option.toList_none] at this ⊢
          omega
    · split at h
      · have := ih _ _ _ h
        simp only [List.length_append, List.length_cons, List.length_nil,
          Option.toList_some, Option.toList_none] at this ⊢
        omega
      · exact absurd h (by simp)

/-- The segmenter reports `InvalidSequence` only when the input actually
contains a dependent vowel sign or modifier of the detected script: the
error is never produced by any other character kind. -/
theorem segGo_invalidSequence_mem (tbl : ScriptTable) (sc : Script) :
    ∀ (text : List Nat) (cur : Option Syllable) (acc : List Syllable),
      segGo tbl sc cur acc text = .error .InvalidSequence →
      ∃ cp ∈ text, tbl.roleOf sc cp = some .dependentVowelSign ∨
        ∃ k, tbl.roleOf sc cp = some (.modifier k) := by
  intro text
  induction text with
  | nil => intro cur acc h; simp [segGo] at h
  | cons cp rest ih =>
    intro cur acc h
    simp only [segGo] at h
    split at h
    · obtain ⟨c, hc, hr⟩ := ih _ _ h
      exact ⟨c, List.mem_cons_of_mem _ hc, hr⟩
    · obtain ⟨c, hc, hr⟩ := ih _ _ h
      exact ⟨c, List.mem_cons_of_mem _ hc, hr⟩
    · rename_i hrole
      split at h
      · exact ⟨cp, List.mem_cons_self _ _, Or.inl hrole⟩
      · obtain ⟨c, hc, hr⟩ := ih _ _ h
        exact ⟨c, List.mem_cons_of_mem _ hc, hr⟩
    · rename_i k hrole
      split at h
      · exact ⟨cp, List.mem_cons_self _ _, Or.inr ⟨k, hrole⟩⟩
      · split at h
        · obtain ⟨c, hc, hr⟩ := ih _ _ h
          exact ⟨c, List.mem_cons_of_mem _ hc, hr⟩
        · obtain ⟨c, hc, hr⟩ := ih _ _ h
          exact ⟨c, List.mem_cons_of_mem _ hc, hr⟩
    · split at h
      · obtain ⟨c, hc, hr⟩ := ih _ _ h
        exact ⟨c, List.mem_cons_of_mem _ hc, hr⟩
      · exact absurd h (by simp)

/-- The segmenter reports `ScriptViolation` only when the input actually
contains a non-ignorable code point outside the detected script. -/
theorem segGo_scriptViolation_mem (tbl : ScriptTable) (sc : Script) :
    ∀ (text : List Nat) (cur : Option Syllable) (acc : List Syllable),
      segGo tbl sc cur acc text = .error .ScriptViolation →
      ∃ cp ∈ text, tbl.roleOf sc cp = none ∧ tbl.ignorable cp = false := by
  intro text
  induction text with
  | nil => intro cur acc h; simp [segGo] at h
  | cons cp rest ih =>
    intro cur acc h
    simp only [segGo] at h
    split at h
    · obtain ⟨c, hc, hr⟩ := ih _ _ h
      exact ⟨c, List.mem_cons_of_mem _ hc, hr⟩
    · obtain ⟨c, hc, hr⟩ := ih _ _ h
      exact ⟨c, List.mem_cons_of_mem _ hc, hr⟩
    · split at h
      · exact absurd h (by simp)
      · obtain ⟨c, hc, hr⟩ := ih _ _ h
        exact ⟨c, List.mem_cons_of_mem _ hc, hr⟩
    · split at h
      · exact absurd h (by simp)
      · split at h
        · obtain ⟨c, hc, hr⟩ := ih _ _ h
          exact ⟨c, List.mem_cons_of_mem _ hc, hr⟩
        · obtain ⟨c, hc, hr⟩ := ih _ _ h
          exact ⟨c, List.mem_cons_of_mem _ hc, hr⟩
    · rename_i hrole
      split at h
      · obtain ⟨c, hc, hr⟩ := ih _ _ h
        exact ⟨c, List.mem_cons_of_mem _ hc, hr⟩
      · rename_i hign
        exact ⟨cp, List.mem_cons_self _ _,
          hrole, by simpa using hign⟩

end IndicSoundex

namespace IndicSoundex

/-- C1: encode is a deterministic pure function of its text and optional
script hint: two calls on identical inputs yield identical results, with
no randomness or hidden state. -/
theorem encode_deterministic (tbl : ScriptTable) (ctbl : ClassTable)
    (ml : Nat) (h1 h2 : Option Script) (t1 t2 : List Nat)
    (hh : h1 = h2) (ht : t1 = t2) :
    encode tbl ctbl ml h1 t1 = encode tbl ctbl ml h2 t2 := by
  subst hh; subst ht; rfl

/-- Witness for C1 at a concrete input. -/
theorem encode_deterministic_witness :
    encode sampleScriptTable sampleClassTable 3 none [0x915] =
      encode sampleScriptTable sampleClassTable 3 none [0x915] :=
  encode_deterministic sampleScriptTable sampleClassTable 3 none none
    [0x915] [0x915] rfl rfl

/-- C2: `equals` is exactly the composition of the encoding pipeline on
both words followed by exact Code equality: it answers `true` precisely
when both encodes succeed with equal Codes, and on two successful
encodes it returns the decidable equality of the two Codes. -/
theorem equals_is_encode_composition (tbl : ScriptTable)
    (ctbl : ClassTable) (ml : Nat) (ha hb : Option Script)
    (a b : List Nat) :
    (equals tbl ctbl ml ha hb a b = .ok true ↔
      ∃ c, encode tbl ctbl ml ha a = .ok c ∧
           encode tbl ctbl ml hb b = .ok c) ∧
    (∀ ca cb, encode tbl ctbl ml ha a = .ok ca →
      encode tbl ctbl ml hb b = .ok cb →
      equals tbl ctbl ml ha hb a b = .ok (decide (ca = cb))) := by
  constructor
  · unfold equals
    cases hea : encode tbl ctbl ml ha a with
    | error e => simp [hea]
    | ok ca =>
      cases heb : encode tbl ctbl ml hb b with
      | error e => simp [heb]
      | ok cb =>
        simp only [hea, heb, Except.ok.injEq]
        constructor
        · intro h
          exact ⟨ca, rfl, by rw [of_decide_eq_true h]⟩
        · rintro ⟨c, hc1, hc2⟩
          cases hc1; cases hc2
          simp
  · intro ca cb hca hcb
    unfold equals
    rw [hca, hcb]

/-- Witness for C2: on two concretely encoded words with distinct Codes,
`equals` answers exactly the Codes' equality, namely `false`. -/
theorem equals_is_encode_composition_witness :
    equals sampleScriptTable sampleClassTable 3 none none [0x915] [0x995] =
      .ok false := by
  have h := (equals_is_encode_composition sampleScriptTable
      sampleClassTable 3 none none [0x915] [0x995]).2
    (Code.mk 0x915 []) (Code.mk 0x995 []) rfl rfl
  exact h

/-- C3: the tail of any Code produced by `encode` has length at most the
configured maximum length, for every input. -/
theorem encode_tail_le_maxLength (tbl : ScriptTable) (ctbl : ClassTable)
    (ml : Nat) (hint : Option Script) (text : List Nat) (c : Code)
    (h : encode tbl ctbl ml hint text = .ok c) : c.tail.length ≤ ml := by
  unfold encode at h
  split at h
  · exact absurd h (by simp)
  · split at h
    · exact absurd h (by simp)
    · split at h
      · rename_i c0 hg
        cases h
        exact generate_tail_le _ _ _ _ hg
      · exact absurd h (by simp)

/-- Witness for C3: the concrete encode of Devanagari ka-pa with maximum
length 1 keeps its tail within the bound. -/
theorem encode_tail_le_maxLength_witness :
    (Code.mk 0x915 [PhoneticClass.labial]).tail.length ≤ 1 :=
  encode_tail_le_maxLength sampleScriptTable sampleClassTable 1 none
    [0x915, 0x92A, 0x915, 0x92A] (Code.mk 0x915 [PhoneticClass.labial])
    (by rfl)

/-- C4: the anchor of a generated Code is the first syllable's anchor
symbol (its base consonant, or its vowel if vowel-initial) and never
depends on the trailing syllables: two sequences sharing the first
syllable get identical anchors. -/
theorem anchor_stable (ctbl : ClassTable) (ml : Nat) (s : Syllable)
    (t1 t2 : List Syllable) (c1 c2 : Code)
    (h1 : generate ctbl ml (s :: t1) = some c1)
    (h2 : generate ctbl ml (s :: t2) = some c2) :
    c1.anchor = c2.anchor ∧ c1.anchor = anchorOf s := by
  simp only [generate, Option.some.injEq] at h1 h2
  subst h1; subst h2
  exact ⟨rfl, rfl⟩

/-- Witness for C4: the ka syllable anchors both the one-syllable and the
two-syllable sequence with the same literal symbol. -/
theorem anchor_stable_witness :
    (Code.mk 0x915 []).anchor =
        (Code.mk 0x915 [PhoneticClass.labial]).anchor ∧
      (Code.mk 0x915 []).anchor =
        anchorOf ⟨some 0x915, some .inherent, []⟩ :=
  anchor_stable sampleClassTable 3 ⟨some 0x915, some .inherent, []⟩
    [] [⟨some 0x92A, some .inherent, []⟩]
    (Code.mk 0x915 []) (Code.mk 0x915 [PhoneticClass.labial])
    (by rfl) (by rfl)

/-- C5: duplicating a syllable immediately after an occurrence carrying
the same PhoneticClass leaves the generated Code unchanged — `generate`
collapses consecutive identical classes (and drops neutral ones), so the
sequence encodes identically with the repetition present or absent. -/
theorem duplicate_collapse (ctbl : ClassTable) (ml : Nat)
    (xs ys : List Syllable) (s s' : Syllable)
    (h : classify ctbl s' = classify ctbl s) :
    generate ctbl ml (xs ++ s :: s' :: ys) =
      generate ctbl ml (xs ++ s :: ys) := by
  cases xs with
  | nil =>
    simp only [List.nil_append, generate, List.foldl_cons]
    rw [genStep_absorb ctbl (classify ctbl s) [] s' h]
  | cons x xs' =>
    simp only [List.cons_append, generate, List.foldl_append]
    rw [foldl_genStep_dup ctbl s s' h ys]

/-- Witness for C5: doubling the ka syllable leaves the code of the
one-syllable word unchanged. -/
theorem duplicate_collapse_witness :
    generate sampleClassTable 3
        [⟨some 0x915, some .inherent, []⟩, ⟨some 0x915, some .inherent, []⟩] =
      generate sampleClassTable 3 [⟨some 0x915, some .inherent, []⟩] :=
  duplicate_collapse sampleClassTable 3 [] []
    ⟨some 0x915, some .inherent, []⟩ ⟨some 0x915, some .inherent, []⟩ rfl

/-- C6: a dependent vowel sign or modifier with no open syllable to
attach to (in particular at the very start of input) makes segmentation
fail with `InvalidSequence`; a non-ignorable code point outside the
detected script makes it fail with `ScriptViolation`; each error arises
only from such a character — malformed input is never silently dropped —
and on the sample tables a word mixing Devanagari with Bengali fails with
`ScriptViolation`, while a leading dependent vowel sign fails with
`InvalidSequence`. -/
theorem segment_error_scenarios :
    (∀ (tbl : ScriptTable) (sc : Script) (cp : Nat) (rest : List Nat),
        tbl.roleOf sc cp = some .dependentVowelSign →
        segment tbl sc (cp :: rest) = .error .InvalidSequence) ∧
    (∀ (tbl : ScriptTable) (sc : Script) (cp : Nat) (k : ModKind)
        (rest : List Nat),
        tbl.roleOf sc cp = some (.modifier k) →
        segment tbl sc (cp :: rest) = .error .InvalidSequence) ∧
    (∀ (tbl : ScriptTable) (sc : Script) (cur : Option Syllable)
        (acc : List Syllable) (cp : Nat) (rest : List Nat),
        tbl.roleOf sc cp = none → tbl.ignorable cp = false →
        segGo tbl sc cur acc (cp :: rest) = .error .ScriptViolation) ∧
    (∀ (tbl : ScriptTable) (sc : Script) (text : List Nat),
        segment tbl sc text = .error .InvalidSequence →
        ∃ cp ∈ text, tbl.roleOf sc cp = some .dependentVowelSign ∨
          ∃ k, tbl.roleOf sc cp = some (.modifier k)) ∧
    (∀ (tbl : ScriptTable) (sc : Script) (text : List Nat),
        segment tbl sc text = .error .ScriptViolation →
        ∃ cp ∈ text, tbl.roleOf sc cp = none ∧
          tbl.ignorable cp = false) ∧
    encode sampleScriptTable sampleClassTable 3 none [0x915, 0x995] =
      .error .ScriptViolation ∧
    encode sampleScriptTable sampleClassTable 3 none [0x93E] =
      .error .InvalidSequence := by
  refine ⟨?_, ?_, ?_, ?_, ?_, by rfl, by rfl⟩
  · intro tbl sc cp rest hrole
    simp [segment, segGo, hrole]
  · intro tbl sc cp k rest hrole
    simp [segment, segGo, hrole]
  · intro tbl sc cur acc cp rest hrole hign
    simp [segGo, hrole, hign]
  · intro tbl sc text h
    exact segGo_invalidSequence_mem tbl sc text none [] h
  · intro tbl sc text h
    exact segGo_scriptViolation_mem tbl sc text none [] h

/-- Witness for C6 at concrete inputs: a leading Devanagari dependent
vowel sign is an invalid sequence, and a Bengali consonant inside a
Devanagari word is a script violation. -/
theorem segment_error_scenarios_witness :
    segment sampleScriptTable .devanagari [0x93E] =
        .error .InvalidSequence ∧
      segGo sampleScriptTable .devanagari
          (some ⟨some 0x915, some .inherent, []⟩) [] [0x995] =
        .error .ScriptViolation :=
  ⟨segment_error_scenarios.1 sampleScriptTable .devanagari 0x93E []
      (by decide),
    segment_error_scenarios.2.2.1 sampleScriptTable .devanagari
      (some ⟨some 0x915, some .inherent, []⟩) [] 0x995 []
      (by decide) (by decide)⟩

/-- C7: classify is a total function — modifier exceptions win, an
unknown consonant falls back to the dedicated Unknown class rather than
raising — and no error is ever swallowed into a Code: every Code that
`encode` returns comes from a fully successful detect/segment/generate
pipeline. -/
theorem classify_total_unknown_fallback :
    (∀ (ctbl : ClassTable) (s : Syllable) (c : Nat),
        s.base = some c → modOverride ctbl s = none →
        classify ctbl s = (ctbl.consClass c).getD .unknown) ∧
    (∀ (ctbl : ClassTable) (s : Syllable) (c : Nat),
        s.base = some c → modOverride ctbl s = none →
        ctbl.consClass c = none → classify ctbl s = .unknown) ∧
    (∀ (tbl : ScriptTable) (ctbl : ClassTable) (ml : Nat)
        (hint : Option Script) (text : List Nat) (c : Code),
        encode tbl ctbl ml hint text = .ok c →
        ∃ sc syls, detect tbl hint text = .ok sc ∧
          segment tbl sc text = .ok syls ∧
          generate ctbl ml syls = some c) := by
  refine ⟨?_, ?_, ?_⟩
  · intro ctbl s c hb hm
    simp [classify, hm, hb]
  · intro ctbl s c hb hm hc
    simp [classify, hm, hb, hc]
  · intro tbl ctbl ml hint text c h
    unfold encode at h
    split at h
    · exact absurd h (by simp)
    · rename_i sc hd
      split at h
      · exact absurd h (by simp)
      · rename_i syls hs
        split at h
        · rename_i c0 hg
          cases h
          exact ⟨sc, syls, hd, hs, hg⟩
        · exact absurd h (by simp)

/-- Witness for C7: a syllable with an uncovered consonant classifies to
the Unknown class under the sample policy table. -/
theorem classify_total_unknown_fallback_witness :
    classify sampleClassTable ⟨some 999, some .inherent, []⟩ =
      PhoneticClass.unknown :=
  classify_total_unknown_fallback.2.1 sampleClassTable
    ⟨some 999, some .inherent, []⟩ 999 rfl rfl (by decide)

/-- C9: every encode call terminates with a result, and its step count —
detector scan plus segmenter pass plus generator reduction — is linear
in the number of code points of the input: there is no unbounded
iteration anywhere in the pipeline. -/
theorem encode_terminates_linear (tbl : ScriptTable) (ctbl : ClassTable)
    (ml : Nat) (hint : Option Script) (text : List Nat) :
    (∃ r, encode tbl ctbl ml hint text = r) ∧
      encodeSteps tbl hint text ≤ 3 * text.length + 3 := by
  refine ⟨⟨_, rfl⟩, ?_⟩
  unfold encodeSteps
  have hd := detectSteps_le tbl text
  split
  · omega
  · rename_i sc _
    have hs := segGoSteps_le tbl sc text none
    split
    · simp only [Nat.add_zero]
      omega
    · rename_i syls hseg
      have hl := segGo_length tbl sc text none [] syls hseg
      simp only [List.length_nil, Option.toList_none] at hl
      have hg : genSteps syls ≤ text.length + 1 := by
        cases syls with
        | nil => simp [genSteps]
        | cons s r =>
          simp only [genSteps]
          simp only [List.length_cons] at hl
          omega
      exact le_trans (Nat.add_le_add hd (Nat.add_le_add hs hg)) (by omega)

end IndicSoundex

/-- C8: the legacy module's export list `__all__` re-exports exactly one
symbol, `IndicSoundex`, and no other name. -/
theorem shim_all_single_export :
    Shim.__all__ = ["IndicSoundex"] ∧
      ∀ s : String, s ∈ Shim.__all__ ↔ s = "IndicSoundex" := by
  refine ⟨rfl, fun s => ?_⟩
  simp [Shim.__all__]

/-- C10: the shim binds `IndicSoundex` to the very object provided by
`indic_soundex.core` — the import returns the looked-up object itself —
and the import succeeds exactly when the core module has the attribute,
raising an import error otherwise. -/
theorem shim_binds_core_object {α : Type} (core : Shim.PyModule α) :
    (∀ o : α, core.attrs "IndicSoundex" = some o →
        Shim.shimImport core = .ok o) ∧
      (core.attrs "IndicSoundex" = none →
        Shim.shimImport core = .error "ImportError") := by
  constructor
  · intro o ho
    simp [Shim.shimImport, Shim.fromImport, ho]
  · intro ho
    simp [Shim.shimImport, Shim.fromImport, ho]

/-- Witness for C10: on a concrete core module namespace the shim import
yields exactly the stored object. -/
theorem shim_binds_core_object_witness :
    Shim.shimImport IndicSoundex.coreSample = .ok 7 :=
  (shim_binds_core_object IndicSoundex.coreSample).1 7 (by decide)
